import Mathlib

/-!
Shallow embedding of the election voting and tally core of the
Online Voting System (Express/Mongoose backend, React frontend).

The store is modelled as three document collections kept in insertion
(creation) order, mirroring the three Mongoose models `Election`,
`Candidate` and `Vote`.  MongoDB object ids are modelled as `Nat`,
JavaScript `Date` values as `Int` (milliseconds since epoch); `Date`
comparisons in the source become integer comparisons here.  Mongoose
queries (`findById`, `findOne`, `find`, `countDocuments`) become
first-match lookups and filters over those lists, and the unique
compound index on `(voter, election)` of the Vote schema becomes an
explicit duplicate-key check performed by the storage-level insert.
-/

/-- Election document (`Election` model: title, description, startDate,
endDate, isActive, createdBy).  The creator reference is irrelevant to
every claim and omitted. -/
structure Election where
  id : Nat
  title : String
  description : String
  startDate : Int
  endDate : Int
  isActive : Bool
  deriving Repr, DecidableEq

/-- Candidate document (`Candidate` model: name, party, description,
photo, election, voteCount).  `voteCount` is the denormalized counter
maintained by the vote route. -/
structure Candidate where
  id : Nat
  name : String
  party : String
  description : String
  photo : String
  election : Nat
  voteCount : Nat
  deriving Repr, DecidableEq

/-- Vote document (`Vote` model: voter, candidate, election,
timestamp). -/
structure Vote where
  voter : Nat
  candidate : Nat
  election : Nat
  timestamp : Int
  deriving Repr, DecidableEq

/-- The authoritative data store: the three collections, each a list in
insertion (creation) order. -/
structure Store where
  elections : List Election
  candidates : List Candidate
  votes : List Vote
  deriving Repr, DecidableEq

/-- Model of `Election.findById(id)`. -/
def findElection (st : Store) (eid : Nat) : Option Election :=
  st.elections.find? (fun el => el.id == eid)

/-- Model of `Candidate.findOne({ _id: candidateId, election: electionId })`
used by the vote route. -/
def findCandidateInElection (st : Store) (cid eid : Nat) : Option Candidate :=
  st.candidates.find? (fun c => c.id == cid && c.election == eid)

/-- Model of `Candidate.findById(id)`. -/
def findCandidateById (st : Store) (cid : Nat) : Option Candidate :=
  st.candidates.find? (fun c => c.id == cid)

/-- Model of `Vote.findOne({ voter, election })`. -/
def findVote (st : Store) (voterId eid : Nat) : Option Vote :=
  st.votes.find? (fun v => v.voter == voterId && v.election == eid)

/-- Model of `Vote.countDocuments({ election: id })`. -/
def countVotesElection (st : Store) (eid : Nat) : Nat :=
  (st.votes.filter (fun v => v.election == eid)).length

/-- Model of `Vote.countDocuments({ candidate: id })`. -/
def countVotesCandidate (st : Store) (cid : Nat) : Nat :=
  (st.votes.filter (fun v => v.candidate == cid)).length

/-- Number of Vote records for a fixed (election, candidate) pair. -/
def countVotesFor (st : Store) (eid cid : Nat) : Nat :=
  (st.votes.filter (fun v => v.election == eid && v.candidate == cid)).length

/-- Outcome of a storage-level insert into the Vote collection. -/
inductive SaveResult where
  | ok (st : Store)
  | dupKey
  deriving Repr

/-- Model of `vote.save()` under the unique compound index
`voteSchema.index({ voter: 1, election: 1 }, { unique: true })`:
inserting a Vote whose (voter, election) pair already occurs raises the
duplicate-key error (Mongo error code 11000); otherwise the document is
appended to the collection. -/
def saveVote (st : Store) (v : Vote) : SaveResult :=
  if st.votes.any (fun w => w.voter == v.voter && w.election == v.election) then
    SaveResult.dupKey
  else
    SaveResult.ok { st with votes := st.votes ++ [v] }

/-- First-match voteCount increment on the candidate list; helper for
`incVoteCount`. -/
def bumpFirst (cid : Nat) : List Candidate → List Candidate
  | [] => []
  | c :: cs =>
    if c.id == cid then { c with voteCount := c.voteCount + 1 } :: cs
    else c :: bumpFirst cid cs

/-- Model of `Candidate.findByIdAndUpdate(candidateId, { $inc: { voteCount: 1 } })`:
increments the voteCount of the (unique) candidate document with the
given id. -/
def incVoteCount (st : Store) (cid : Nat) : Store :=
  { st with candidates := bumpFirst cid st.candidates }

/-- Election lifecycle states (spec names; the source labels them
inactive / upcoming / active / ended). -/
inductive LifecycleState where
  | Inactive
  | Upcoming
  | Open
  | Closed
  deriving Repr, DecidableEq

/-- Model of `getElectionStatus` in `AdminDashboard.tsx` (the spec's
`classify`): inactive when the enabled flag is off, upcoming before
`startDate`, active inside the closed interval `[startDate, endDate]`,
ended afterwards. -/
def getElectionStatus (el : Election) (now : Int) : LifecycleState :=
  if el.isActive = false then LifecycleState.Inactive
  else if now < el.startDate then LifecycleState.Upcoming
  else if el.startDate ≤ now ∧ now ≤ el.endDate then LifecycleState.Open
  else LifecycleState.Closed

/-- Model of `isElectionActive` in the voter-facing Vote page:
`isActive && now >= start && now <= end`. -/
def isElectionActive (el : Election) (now : Int) : Bool :=
  el.isActive && decide (el.startDate ≤ now) && decide (now ≤ el.endDate)

/-- Outcomes of the vote-admission route `POST /api/elections/:id/vote`.
`NotOpen` carries the lifecycle state that caused the rejection, one of
Inactive / Upcoming / Closed (the route's three distinct messages
"Election is not active", "Election has not started yet",
"Election has ended"). -/
inductive VoteOutcome where
  | NotFoundElection
  | NotOpen (state : LifecycleState)
  | NotFoundCandidate
  | AlreadyVoted
  | Success
  deriving Repr, DecidableEq

/-- Model of the commit phase of the vote route (the end of the `try`
block plus the `catch`): `await vote.save()` followed by the counter
increment; a duplicate-key error (`error.code === 11000`) from the save
is translated into the already-voted rejection with no state change. -/
def commitPhase (st : Store) (v : Vote) : VoteOutcome × Store :=
  match saveVote st v with
  | SaveResult.ok st1 => (VoteOutcome.Success, incVoteCount st1 v.candidate)
  | SaveResult.dupKey => (VoteOutcome.AlreadyVoted, st)

/-- Model of the vote-admission route `POST /api/elections/:id/vote`
(the spec's `admitVote`): the source's cascade of checks, in source
order — election exists, isActive, `now < startDate`, `now > endDate`,
candidate exists in this election, voter has not already voted — then
the commit phase. -/
def admitVote (st : Store) (voterId eid cid : Nat) (now : Int) : VoteOutcome × Store :=
  match findElection st eid with
  | none => (VoteOutcome.NotFoundElection, st)
  | some el =>
    if el.isActive = false then (VoteOutcome.NotOpen LifecycleState.Inactive, st)
    else if now < el.startDate then (VoteOutcome.NotOpen LifecycleState.Upcoming, st)
    else if el.endDate < now then (VoteOutcome.NotOpen LifecycleState.Closed, st)
    else
      match findCandidateInElection st cid eid with
      | none => (VoteOutcome.NotFoundCandidate, st)
      | some _ =>
        match findVote st voterId eid with
        | some _ => (VoteOutcome.AlreadyVoted, st)
        | none =>
          commitPhase st { voter := voterId, candidate := cid, election := eid, timestamp := now }

/-- State left by a vote admission that committed `vote.save()` and then
failed before the counter increment (the two writes are separate awaits
with no transaction, so this interruption point exists). -/
def saveOnly (st : Store) (v : Vote) : Store :=
  match saveVote st v with
  | SaveResult.ok st1 => st1
  | SaveResult.dupKey => st

/-- One step of the store under concurrent vote handling:
a full admission (`admit`), the commit phase of a handler whose
pre-checks ran against a stale snapshot so that only the storage
constraint arbitrates (`race`), and a commit phase interrupted between
the Vote insert and the counter increment (`crash`). -/
inductive Step (st : Store) : Store → Prop
  | full (voterId eid cid : Nat) (now : Int) :
      Step st (admitVote st voterId eid cid now).2
  | race (v : Vote) : Step st (commitPhase st v).2
  | crash (v : Vote) : Step st (saveOnly st v)

/-- States reachable from a base store by any sequence of vote-handling
steps. -/
inductive ReachableFrom (base : Store) : Store → Prop
  | refl : ReachableFrom base base
  | step {st st' : Store} : ReachableFrom base st → Step st st' → ReachableFrom base st'

/-- States reachable from a base store by failure-free vote handling
only (no interruption between the Vote insert and the counter
increment). -/
inductive ReachableNoCrash (base : Store) : Store → Prop
  | refl : ReachableNoCrash base base
  | admitStep {st : Store} (voterId eid cid : Nat) (now : Int) :
      ReachableNoCrash base st → ReachableNoCrash base (admitVote st voterId eid cid now).2
  | race {st : Store} (v : Vote) :
      ReachableNoCrash base st → ReachableNoCrash base (commitPhase st v).2

/-- Core invariant: at most one Vote record per (voter, election) pair. -/
def UniqueVotes (st : Store) : Prop :=
  st.votes.Pairwise (fun a b => ¬(a.voter = b.voter ∧ a.election = b.election))

/-- Tally consistency: every candidate document's denormalized counter
equals the number of Vote records referencing that candidate. -/
def CountersConsistent (st : Store) : Prop :=
  ∀ c ∈ st.candidates, c.voteCount = countVotesCandidate st c.id

/-- Descending order on the denormalized counters, the sort key of
`Candidate.find({ election }).sort({ voteCount: -1 })`. -/
def candGE (a b : Candidate) : Prop :=
  b.voteCount ≤ a.voteCount

instance : DecidableRel candGE := fun a b =>
  inferInstanceAs (Decidable (b.voteCount ≤ a.voteCount))

instance : IsTotal Candidate candGE :=
  ⟨fun a b => Nat.le_total b.voteCount a.voteCount⟩

instance : IsTrans Candidate candGE :=
  ⟨fun _ _ _ hab hbc => Nat.le_trans hbc hab⟩

/-- Candidates of an election in creation order, the model of
`Candidate.find({ election: id })` (the collection scan yields documents
in insertion order). -/
def electionCandidates (st : Store) (eid : Nat) : List Candidate :=
  st.candidates.filter (fun c => c.election == eid)

/-- Contract of the storage sort `cursor.sort({ voteCount: -1 })`: the
cursor yields some permutation of the matched documents that is
descending in the sort key.  MongoDB documents the relative order of
documents with equal sort-key values as undefined, and the route adds
no tiebreak key, so the program guarantees nothing beyond this
contract; every list satisfying it is a possible served order. -/
def MongoSortDesc (input output : List Candidate) : Prop :=
  output.Perm input ∧ output.Pairwise candGE

/-- Executable model of `Candidate.find({ election: id }).sort({ voteCount: -1 })`
in the results route.  The program only guarantees the `MongoSortDesc`
contract (tie order undefined); an executable embedding must pick one
permitted refinement of that contract, and this one is a stable sort
over creation order.  No claim relies on the tie order of this
refinement: the tie-order question is settled against `MongoSortDesc`
itself. -/
def sortedCandidates (st : Store) (eid : Nat) : List Candidate :=
  (electionCandidates st eid).insertionSort candGE

/-- Payload of `GET /api/elections/:id/results` as served to the
frontend: the election, candidates ordered by descending counter,
`totalVotes` from `Vote.countDocuments({ election })`, and the caller's
own Vote if any. -/
structure ResultsResponse where
  election : Election
  candidates : List Candidate
  totalVotes : Nat
  userVote : Option Nat
  hasVoted : Bool
  deriving Repr, DecidableEq

/-- Model of the results route `GET /api/elections/:id/results`:
404 (`none`) when the election does not exist, otherwise the response
payload assembled exactly as in the source. -/
def getResults (st : Store) (eid voterId : Nat) : Option ResultsResponse :=
  match findElection st eid with
  | none => none
  | some el =>
    let uv := findVote st voterId eid
    some
      { election := el
        candidates := sortedCandidates st eid
        totalVotes := countVotesElection st eid
        userVote := uv.map (fun v => v.candidate)
        hasVoted := uv.isSome }

/-- Model of `isElectionEnded` in `Results.tsx`:
`new Date() > new Date(results.election.endDate)` — the date comparison
alone, with no look at the `isActive` flag. -/
def isElectionEnded (el : Election) (now : Int) : Bool :=
  decide (el.endDate < now)

/-- Winner display logic of `Results.tsx`: `winner` is the head of the
served candidate ordering when nonempty, and the winner banner is
rendered exactly when `winner && isElectionEnded() && totalVotes > 0`. -/
def winnerDisplayed (r : ResultsResponse) (now : Int) : Option Candidate :=
  match r.candidates.head? with
  | none => none
  | some w =>
    if isElectionEnded r.election now && decide (0 < r.totalVotes) then some w
    else none

/-- Outcomes of the admin routes; the source's 400 rejection of a
mutation on an entity holding votes is the spec's `Conflict`. -/
inductive AdminOutcome where
  | NotFound
  | Conflict
  | Ok
  deriving Repr, DecidableEq

/-- Optional fields of the `PUT /api/admin/elections/:id` request body. -/
structure ElectionUpdate where
  title : Option String := none
  description : Option String := none
  startDate : Option Int := none
  endDate : Option Int := none
  isActive : Option Bool := none
  deriving Repr, DecidableEq

/-- Copy of every supplied body field onto the election document
(`Object.keys(req.body).forEach(...)` followed by `election.save()`). -/
def applyElectionUpdate (el : Election) (b : ElectionUpdate) : Election :=
  { el with
    title := b.title.getD el.title
    description := b.description.getD el.description
    startDate := b.startDate.getD el.startDate
    endDate := b.endDate.getD el.endDate
    isActive := b.isActive.getD el.isActive }

/-- First-match replacement in the election collection, the model of
saving a mutated document back under its id. -/
def replaceElection (eid : Nat) (el' : Election) : List Election → List Election
  | [] => []
  | e :: es => if e.id == eid then el' :: es else e :: replaceElection eid el' es

/-- Model of `PUT /api/admin/elections/:id`: 404 when the election does
not exist; Conflict when the election already holds votes and the body
touches `startDate` or `endDate`; otherwise the update is applied. -/
def updateElection (st : Store) (eid : Nat) (b : ElectionUpdate) : AdminOutcome × Store :=
  match findElection st eid with
  | none => (AdminOutcome.NotFound, st)
  | some el =>
    if 0 < countVotesElection st eid ∧ (b.startDate.isSome ∨ b.endDate.isSome) then
      (AdminOutcome.Conflict, st)
    else
      (AdminOutcome.Ok,
        { st with elections := replaceElection eid (applyElectionUpdate el b) st.elections })

/-- Model of `DELETE /api/admin/elections/:id`: 404 when absent;
Conflict when the election holds votes; otherwise its candidates are
removed (`Candidate.deleteMany({ election })`) and the election deleted
(`Election.findByIdAndDelete`). -/
def deleteElection (st : Store) (eid : Nat) : AdminOutcome × Store :=
  match findElection st eid with
  | none => (AdminOutcome.NotFound, st)
  | some _ =>
    if 0 < countVotesElection st eid then (AdminOutcome.Conflict, st)
    else
      (AdminOutcome.Ok,
        { st with
          elections := st.elections.eraseP (fun e => e.id == eid)
          candidates := st.candidates.filter (fun c => !(c.election == eid)) })

/-- Model of `DELETE /api/admin/candidates/:id`: 404 when absent;
Conflict when any Vote references the candidate
(`Vote.countDocuments({ candidate: id }) > 0`); otherwise the candidate
document is deleted. -/
def deleteCandidate (st : Store) (cid : Nat) : AdminOutcome × Store :=
  match findCandidateById st cid with
  | none => (AdminOutcome.NotFound, st)
  | some _ =>
    if 0 < countVotesCandidate st cid then (AdminOutcome.Conflict, st)
    else
      (AdminOutcome.Ok, { st with candidates := st.candidates.eraseP (fun c => c.id == cid) })

/-! Concrete fixtures used to exercise the model on explicit inputs. -/

/-- An enabled election whose voting window is the interval [0, 100]. -/
def election1 : Election :=
  { id := 1, title := "Board", description := "d", startDate := 0, endDate := 100, isActive := true }

/-- First candidate of `election1`, created before `cand2`. -/
def cand1 : Candidate :=
  { id := 1, name := "Alice", party := "Independent", description := "", photo := ""
    election := 1, voteCount := 0 }

/-- Second candidate of `election1`. -/
def cand2 : Candidate :=
  { id := 2, name := "Bob", party := "Independent", description := "", photo := ""
    election := 1, voteCount := 0 }

/-- A store holding one open election with two candidates and no votes. -/
def baseStore : Store :=
  { elections := [election1], candidates := [cand1, cand2], votes := [] }

/-- Third candidate fixture, holding one vote, for the tally scenario. -/
def candA : Candidate :=
  { id := 1, name := "A", party := "Independent", description := "", photo := ""
    election := 1, voteCount := 3 }

/-- Tally scenario candidate tied with `candA` at three votes but created
later. -/
def candB : Candidate :=
  { id := 2, name := "B", party := "Independent", description := "", photo := ""
    election := 1, voteCount := 3 }

/-- Tally scenario candidate with a single vote. -/
def candC : Candidate :=
  { id := 3, name := "C", party := "Independent", description := "", photo := ""
    election := 1, voteCount := 1 }

/-- Tally scenario store: candidates at 3, 3 and 1 votes (seven votes in
all), mirroring Scenario C of the spec. -/
def tallyStore : Store :=
  { elections := [election1]
    candidates := [candA, candB, candC]
    votes :=
      [ { voter := 11, candidate := 1, election := 1, timestamp := 10 }
      , { voter := 12, candidate := 1, election := 1, timestamp := 11 }
      , { voter := 13, candidate := 1, election := 1, timestamp := 12 }
      , { voter := 14, candidate := 2, election := 1, timestamp := 13 }
      , { voter := 15, candidate := 2, election := 1, timestamp := 14 }
      , { voter := 16, candidate := 2, election := 1, timestamp := 15 }
      , { voter := 17, candidate := 3, election := 1, timestamp := 16 } ] }

/-- A disabled election whose window [0, 5] is already past. -/
def endedInactiveElection : Election :=
  { id := 1, title := "Old", description := "d", startDate := 0, endDate := 5, isActive := false }

/-- Sole candidate of the disabled, ended election, holding one vote. -/
def candW : Candidate :=
  { id := 1, name := "W", party := "Independent", description := "", photo := ""
    election := 1, voteCount := 1 }

/-- Store whose only election is disabled and past its end date, with one
recorded vote. -/
def endedStore : Store :=
  { elections := [endedInactiveElection]
    candidates := [candW]
    votes := [ { voter := 9, candidate := 1, election := 1, timestamp := 3 } ] }

/-- Copy of `cand1` carrying one vote, for the admin-conflict scenario. -/
def cand1Voted : Candidate :=
  { id := 1, name := "Alice", party := "Independent", description := "", photo := ""
    election := 1, voteCount := 1 }

/-- Store where `election1` already holds a vote for `cand1`. -/
def votedStore : Store :=
  { elections := [election1]
    candidates := [cand1Voted, cand2]
    votes := [ { voter := 7, candidate := 1, election := 1, timestamp := 50 } ] }

/-! Helper lemmas shared by several claim proofs. -/

/-- Characterization of the lifecycle classification for elections
satisfying the creation-time invariant `closesAt > opensAt`: each of the
four states holds exactly under the condition the spec assigns to it. -/
lemma getElectionStatus_cases (el : Election) (now : Int)
    (hse : el.startDate < el.endDate) :
    (getElectionStatus el now = LifecycleState.Inactive ↔ el.isActive = false) ∧
    (getElectionStatus el now = LifecycleState.Upcoming ↔
      el.isActive = true ∧ now < el.startDate) ∧
    (getElectionStatus el now = LifecycleState.Open ↔
      el.isActive = true ∧ el.startDate ≤ now ∧ now ≤ el.endDate) ∧
    (getElectionStatus el now = LifecycleState.Closed ↔
      el.isActive = true ∧ el.endDate < now) := by
  obtain ⟨i, t, d, s, e, a⟩ := el
  simp only [getElectionStatus] at *
  refine ⟨?_, ?_, ?_, ?_⟩ <;> split_ifs with h1 h2 h3 <;> simp_all <;> omega

/-- C4: for every election (with the creation-time invariant
`closesAt > opensAt`) and every time `now`, `classify` (embedded as
`getElectionStatus`) returns Inactive exactly when the election is
disabled; Upcoming exactly when enabled and `now < opensAt`; Open
exactly when enabled and `opensAt ≤ now ≤ closesAt`, both boundary
instants included; and Closed exactly when enabled and `now > closesAt`. -/
theorem classify_lifecycle_spec (el : Election) (now : Int)
    (hse : el.startDate < el.endDate) :
    (getElectionStatus el now = LifecycleState.Inactive ↔ el.isActive = false) ∧
    (getElectionStatus el now = LifecycleState.Upcoming ↔
      el.isActive = true ∧ now < el.startDate) ∧
    (getElectionStatus el now = LifecycleState.Open ↔
      el.isActive = true ∧ el.startDate ≤ now ∧ now ≤ el.endDate) ∧
    (getElectionStatus el now = LifecycleState.Closed ↔
      el.isActive = true ∧ el.endDate < now) :=
  getElectionStatus_cases el now hse

/-- Witness for `classify_lifecycle_spec`: the boundary instants of
`election1` (window [0, 100], enabled) evaluated through the theorem.
At `now = 100`, the closing instant, the election is still Open. -/
theorem classify_lifecycle_spec_witness :
    getElectionStatus election1 100 = LifecycleState.Open := by
  have h := classify_lifecycle_spec election1 100 (by decide)
  exact (h.2.2.1).mpr (by decide)

/-- Inactive classification from a disabled flag. -/
lemma status_of_inactive {el : Election} {now : Int} (h : el.isActive = false) :
    getElectionStatus el now = LifecycleState.Inactive := by
  simp [getElectionStatus, h]

/-- Upcoming classification before the opening instant. -/
lemma status_of_upcoming {el : Election} {now : Int} (h1 : ¬el.isActive = false)
    (h2 : now < el.startDate) :
    getElectionStatus el now = LifecycleState.Upcoming := by
  simp [getElectionStatus, h1, h2]

/-- Closed classification after the closing instant (given the opening
one has passed). -/
lemma status_of_closed {el : Election} {now : Int} (h1 : ¬el.isActive = false)
    (h2 : ¬now < el.startDate) (h3 : el.endDate < now) :
    getElectionStatus el now = LifecycleState.Closed := by
  simp only [getElectionStatus, if_neg h1, if_neg h2]
  rw [if_neg]
  omega

/-- Open classification inside the voting window. -/
lemma status_of_open {el : Election} {now : Int} (h1 : ¬el.isActive = false)
    (h2 : ¬now < el.startDate) (h3 : ¬el.endDate < now) :
    getElectionStatus el now = LifecycleState.Open := by
  simp only [getElectionStatus, if_neg h1, if_neg h2]
  rw [if_pos]
  omega

/-- Open classification holds exactly inside the enabled voting window
(no well-formedness assumption needed for this state). -/
lemma getElectionStatus_open_iff (el : Election) (now : Int) :
    getElectionStatus el now = LifecycleState.Open ↔
      el.isActive = true ∧ el.startDate ≤ now ∧ now ≤ el.endDate := by
  simp only [getElectionStatus]
  split_ifs with h1 h2 h3 <;> simp_all

/-- A failed voter-election lookup means no stored vote matches, hence
the storage-level duplicate test comes out false. -/
lemma votes_any_eq_false_of_findVote_none {st : Store} {voterId eid : Nat}
    (h : findVote st voterId eid = none) :
    st.votes.any (fun w => w.voter == voterId && w.election == eid) = false := by
  simp only [findVote, List.find?_eq_none] at h
  simp only [List.any_eq_false]
  exact h

/-- C3: the vote-admission route evaluates its preconditions in the
fixed order of the claim, each failure producing its own rejection:
missing election gives NotFoundElection; a non-Open lifecycle state
gives NotOpen carrying exactly the classification (Inactive, Upcoming or
Closed); a candidate absent from the election gives NotFoundCandidate;
an existing vote of this voter gives AlreadyVoted; and with all four
checks passed the vote is admitted. -/
theorem admitVote_check_order (st : Store) (voterId eid cid : Nat) (now : Int) :
    (findElection st eid = none →
      (admitVote st voterId eid cid now).1 = VoteOutcome.NotFoundElection) ∧
    (∀ el, findElection st eid = some el →
      getElectionStatus el now ≠ LifecycleState.Open →
      (admitVote st voterId eid cid now).1 = VoteOutcome.NotOpen (getElectionStatus el now)) ∧
    (∀ el, findElection st eid = some el →
      getElectionStatus el now = LifecycleState.Open →
      findCandidateInElection st cid eid = none →
      (admitVote st voterId eid cid now).1 = VoteOutcome.NotFoundCandidate) ∧
    (∀ el, findElection st eid = some el →
      getElectionStatus el now = LifecycleState.Open →
      (findCandidateInElection st cid eid).isSome = true →
      (findVote st voterId eid).isSome = true →
      (admitVote st voterId eid cid now).1 = VoteOutcome.AlreadyVoted) ∧
    (∀ el, findElection st eid = some el →
      getElectionStatus el now = LifecycleState.Open →
      (findCandidateInElection st cid eid).isSome = true →
      findVote st voterId eid = none →
      (admitVote st voterId eid cid now).1 = VoteOutcome.Success) := by
  refine ⟨?_, ?_, ?_, ?_, ?_⟩
  · intro h
    simp [admitVote, h]
  · intro el hel hst
    simp only [admitVote, hel]
    split_ifs with h1 h2 h3
    · simp [status_of_inactive h1]
    · simp [status_of_upcoming h1 h2]
    · simp [status_of_closed h1 h2 h3]
    · exact absurd (status_of_open h1 h2 h3) hst
  · intro el hel hst hcand
    obtain ⟨ha, hs, he⟩ := (getElectionStatus_open_iff el now).mp hst
    have hns : ¬now < el.startDate := by omega
    have hne : ¬el.endDate < now := by omega
    simp [admitVote, hel, ha, hns, hne, hcand]
  · intro el hel hst hcand hv
    obtain ⟨ha, hs, he⟩ := (getElectionStatus_open_iff el now).mp hst
    have hns : ¬now < el.startDate := by omega
    have hne : ¬el.endDate < now := by omega
    obtain ⟨cd, hcd⟩ := Option.isSome_iff_exists.mp hcand
    obtain ⟨w, hw⟩ := Option.isSome_iff_exists.mp hv
    simp [admitVote, hel, ha, hns, hne, hcd, hw]
  · intro el hel hst hcand hv
    obtain ⟨ha, hs, he⟩ := (getElectionStatus_open_iff el now).mp hst
    have hns : ¬now < el.startDate := by omega
    have hne : ¬el.endDate < now := by omega
    obtain ⟨cd, hcd⟩ := Option.isSome_iff_exists.mp hcand
    have hany := votes_any_eq_false_of_findVote_none hv
    simp [admitVote, hel, ha, hns, hne, hcd, hv, commitPhase, saveVote, hany]

/-- Witness for `admitVote_check_order`: on the concrete base store the
first conjunct rejects a vote in the absent election 2, and the last
conjunct admits a first vote in the open election 1. -/
theorem admitVote_check_order_witness :
    (admitVote baseStore 7 2 1 50).1 = VoteOutcome.NotFoundElection ∧
    (admitVote baseStore 7 1 1 50).1 = VoteOutcome.Success := by
  refine ⟨(admitVote_check_order baseStore 7 2 1 50).1 (by decide), ?_⟩
  exact (admitVote_check_order baseStore 7 1 1 50).2.2.2.2 election1
    (by decide) (by decide) (by decide) (by decide)

/-- Inversion of a successful admission: every pre-check passed and the
resulting store is exactly the saved Vote followed by the counter
increment. -/
lemma admitVote_success_inversion {st : Store} {voterId eid cid : Nat} {now : Int}
    (h : (admitVote st voterId eid cid now).1 = VoteOutcome.Success) :
    ∃ el, findElection st eid = some el ∧
      el.isActive = true ∧ el.startDate ≤ now ∧ now ≤ el.endDate ∧
      (findCandidateInElection st cid eid).isSome = true ∧
      findVote st voterId eid = none ∧
      (admitVote st voterId eid cid now).2 =
        incVoteCount
          { st with votes := st.votes ++
              [{ voter := voterId, candidate := cid, election := eid, timestamp := now }] }
          cid := by
  cases hel : findElection st eid with
  | none => simp [admitVote, hel] at h
  | some el =>
    by_cases h1 : el.isActive = false
    · simp [admitVote, hel, h1] at h
    by_cases h2 : now < el.startDate
    · simp [admitVote, hel, h1, h2] at h
    by_cases h3 : el.endDate < now
    · simp [admitVote, hel, h1, h2, h3] at h
    cases hcd : findCandidateInElection st cid eid with
    | none => simp [admitVote, hel, h1, h2, h3, hcd] at h
    | some cd =>
      cases hv : findVote st voterId eid with
      | some w => simp [admitVote, hel, h1, h2, h3, hcd, hv] at h
      | none =>
        have hany := votes_any_eq_false_of_findVote_none hv
        refine ⟨el, rfl, ?_, by omega, by omega, by simp [hcd], rfl, ?_⟩
        · revert h1; cases el.isActive <;> simp
        · simp only [admitVote, hel]
          rw [if_neg h1, if_neg h2, if_neg h3]
          simp only [hcd, hv]
          simp [commitPhase, saveVote, hany]

/-- Bumping one counter does not affect which candidates a
(candidate, election) lookup can find. -/
lemma findCand_bump {cs : List Candidate} {bumped cid eid : Nat} :
    ((bumpFirst bumped cs).find? (fun c => c.id == cid && c.election == eid)).isSome =
      (cs.find? (fun c => c.id == cid && c.election == eid)).isSome := by
  induction cs with
  | nil => rfl
  | cons c cs ih =>
    obtain ⟨ci, cn, cp, cdesc, cph, ce, cv⟩ := c
    simp only [bumpFirst]
    split_ifs with hb <;> simp only [List.find?] <;> split <;> simp_all

/-- A lookup that fails on the first list segment continues in the
second. -/
lemma find?_append_of_none {α : Type} {p : α → Bool} {l1 l2 : List α}
    (h : l1.find? p = none) : (l1 ++ l2).find? p = l2.find? p := by
  induction l1 with
  | nil => rfl
  | cons a l1 ih =>
    simp only [List.cons_append, List.find?_cons] at h ⊢
    cases hp : p a with
    | true => simp [hp] at h
    | false => simp only [hp] at h ⊢; exact ih h

/-- C5: after a successful admission, resubmitting `admitVote` with the
identical arguments yields AlreadyVoted and leaves the store unchanged
(no second Vote record); and independently, a duplicate-key violation of
the (voter, election) constraint at insertion time — the commit phase of
a handler racing a prior success — is translated into the AlreadyVoted
rejection with the store unchanged, never a generic failure. -/
theorem admitVote_idempotent (st : Store) (voterId eid cid : Nat) (now : Int) :
    ((admitVote st voterId eid cid now).1 = VoteOutcome.Success →
      (admitVote (admitVote st voterId eid cid now).2 voterId eid cid now).1 =
        VoteOutcome.AlreadyVoted ∧
      (admitVote (admitVote st voterId eid cid now).2 voterId eid cid now).2 =
        (admitVote st voterId eid cid now).2) ∧
    (∀ v : Vote,
      (st.votes.any fun w => w.voter == v.voter && w.election == v.election) = true →
      commitPhase st v = (VoteOutcome.AlreadyVoted, st)) := by
  constructor
  · intro h
    obtain ⟨el, hel, ha, hs, he, hcd, hv, hst⟩ := admitVote_success_inversion h
    set st1 := (admitVote st voterId eid cid now).2 with hdef
    have hel1 : findElection st1 eid = some el := by
      rw [hst]
      simpa [findElection, incVoteCount] using hel
    have hcd1 : (findCandidateInElection st1 cid eid).isSome = true := by
      rw [hst]
      simpa [findCandidateInElection, incVoteCount, findCand_bump] using hcd
    have hv1 : findVote st1 voterId eid =
        some { voter := voterId, candidate := cid, election := eid, timestamp := now } := by
      rw [hst]
      simp only [findVote, incVoteCount]
      rw [find?_append_of_none hv]
      simp [List.find?]
    have h1 : ¬el.isActive = false := by simp [ha]
    have h2 : ¬now < el.startDate := by omega
    have h3 : ¬el.endDate < now := by omega
    cases hcd1v : findCandidateInElection st1 cid eid with
    | none => rw [hcd1v] at hcd1; simp at hcd1
    | some cd =>
      simp only [admitVote, hel1]
      rw [if_neg h1, if_neg h2, if_neg h3]
      simp only [hcd1v, hv1]
      exact ⟨trivial, trivial⟩
  · intro v hv
    simp [commitPhase, saveVote, hv]

/-- Witness for `admitVote_idempotent`: on the base store, a second
identical submission after the first success is rejected as
AlreadyVoted; and on the store where voter 7 has voted, a racing commit
phase for the same voter is translated to AlreadyVoted with no state
change. -/
theorem admitVote_idempotent_witness :
    (admitVote (admitVote baseStore 7 1 1 50).2 7 1 1 50).1 = VoteOutcome.AlreadyVoted ∧
    commitPhase votedStore { voter := 7, candidate := 2, election := 1, timestamp := 60 } =
      (VoteOutcome.AlreadyVoted, votedStore) := by
  refine ⟨((admitVote_idempotent baseStore 7 1 1 50).1 (by decide)).1, ?_⟩
  exact (admitVote_idempotent votedStore 7 1 1 50).2 _ (by decide)

/-- A storage-level insert that commits preserves the uniqueness
invariant: the duplicate test guarding the insert is exactly the
invariant's condition for the new record. -/
lemma uniqueVotes_saveVote_ok {st st1 : Store} {v : Vote} (h0 : UniqueVotes st)
    (h : saveVote st v = SaveResult.ok st1) : UniqueVotes st1 := by
  unfold saveVote at h
  by_cases hdup : (st.votes.any fun w => w.voter == v.voter && w.election == v.election) = true
  · rw [if_pos hdup] at h
    cases h
  · rw [if_neg hdup] at h
    cases h
    rw [Bool.not_eq_true] at hdup
    unfold UniqueVotes at h0 ⊢
    rw [List.pairwise_append]
    refine ⟨h0, List.pairwise_singleton _ _, ?_⟩
    intro a ha b hb
    rw [List.mem_singleton] at hb
    subst hb
    rw [List.any_eq_false] at hdup
    have := hdup a ha
    simp only [Bool.and_eq_true, beq_iff_eq] at this
    tauto

/-- The interrupted commit (insert without increment) preserves the
uniqueness invariant. -/
lemma uniqueVotes_saveOnly {st : Store} {v : Vote} (h0 : UniqueVotes st) :
    UniqueVotes (saveOnly st v) := by
  unfold saveOnly
  cases hs : saveVote st v with
  | ok st1 => exact uniqueVotes_saveVote_ok h0 hs
  | dupKey => exact h0

/-- The commit phase leaves exactly the votes of the interrupted commit:
the counter increment never touches the vote log. -/
lemma commitPhase_votes (st : Store) (v : Vote) :
    (commitPhase st v).2.votes = (saveOnly st v).votes := by
  unfold commitPhase saveOnly
  cases saveVote st v <;> rfl

/-- The uniqueness invariant depends only on the vote log. -/
lemma uniqueVotes_of_votes_eq {st' st'' : Store} (h : st'.votes = st''.votes)
    (h0 : UniqueVotes st'') : UniqueVotes st' := by
  unfold UniqueVotes at *
  rw [h]
  exact h0

/-- A full admission either leaves the store unchanged or performs the
commit phase for the assembled Vote document. -/
lemma admitVote_state_cases (st : Store) (voterId eid cid : Nat) (now : Int) :
    (admitVote st voterId eid cid now).2 = st ∨
    (admitVote st voterId eid cid now).2 =
      (commitPhase st
        { voter := voterId, candidate := cid, election := eid, timestamp := now }).2 := by
  cases hel : findElection st eid with
  | none => left; simp [admitVote, hel]
  | some el =>
    simp only [admitVote, hel]
    split_ifs with h1 h2 h3
    · left; rfl
    · left; rfl
    · left; rfl
    · cases hcd : findCandidateInElection st cid eid with
      | none => left; rfl
      | some cd =>
        cases hv : findVote st voterId eid with
        | some w => left; rfl
        | none => right; rfl

/-- Every vote-handling step — full admission, racing commit, or commit
interrupted before the increment — preserves the uniqueness invariant. -/
lemma uniqueVotes_step {st st' : Store} (h0 : UniqueVotes st) (h : Step st st') :
    UniqueVotes st' := by
  cases h with
  | full voterId eid cid now =>
    rcases admitVote_state_cases st voterId eid cid now with hc | hc
    · rw [hc]; exact h0
    · rw [hc]
      exact uniqueVotes_of_votes_eq (commitPhase_votes st _) (uniqueVotes_saveOnly h0)
  | race v =>
    exact uniqueVotes_of_votes_eq (commitPhase_votes st v) (uniqueVotes_saveOnly h0)
  | crash v => exact uniqueVotes_saveOnly h0

/-- C1: at most one Vote record exists per (voter, election) pair in
every state reachable from a store satisfying the invariant, under any
sequence of admissions, racing commits with stale pre-checks, and
commits interrupted before the counter increment — uniqueness is
enforced by the storage-level constraint inside `saveVote`, not only by
the application-level pre-check. -/
theorem admitVote_unique_invariant (base st : Store) (h0 : UniqueVotes base)
    (h : ReachableFrom base st) : UniqueVotes st := by
  induction h with
  | refl => exact h0
  | step _ hs ih => exact uniqueVotes_step ih hs

/-- Witness for `admitVote_unique_invariant`: the store reached from the
base store by one admission and one racing duplicate commit for the same
voter still satisfies the invariant. -/
theorem admitVote_unique_invariant_witness :
    UniqueVotes
      (commitPhase (admitVote baseStore 7 1 1 50).2
        { voter := 7, candidate := 2, election := 1, timestamp := 60 }).2 :=
  admitVote_unique_invariant baseStore _ List.Pairwise.nil
    (ReachableFrom.step (ReachableFrom.step ReachableFrom.refl (Step.full 7 1 1 50))
      (Step.race _))

/-- Store obtained from the base store when the vote insert commits and
the handler fails before the counter increment. -/
def crashedStore : Store :=
  saveOnly baseStore { voter := 7, candidate := 1, election := 1, timestamp := 50 }

/-- Counterexample to C2: the Vote insert and the counter increment are
two separate writes with no transaction, so the store reached by failing
between them is reachable and holds a Vote record for candidate 1 while
candidate 1's counter still reads 0. -/
theorem vote_without_increment_counterexample :
    ReachableFrom baseStore crashedStore ∧
    countVotesFor crashedStore 1 1 = 1 ∧
    (findCandidateById crashedStore 1).map Candidate.voteCount = some 0 :=
  ⟨ReachableFrom.step ReachableFrom.refl (Step.crash _), by decide, by decide⟩

/-- Reading the counter of the candidate with a given id commutes with
bumping that candidate's counter. -/
lemma findCandidateById_bump (cs : List Candidate) (cid : Nat) :
    ((bumpFirst cid cs).find? (fun c => c.id == cid)).map Candidate.voteCount =
      ((cs.find? (fun c => c.id == cid)).map Candidate.voteCount).map (fun n => n + 1) := by
  induction cs with
  | nil => rfl
  | cons c cs ih =>
    obtain ⟨ci, cn, cp, cdesc, cph, ce, cv⟩ := c
    simp only [bumpFirst]
    split_ifs with hb
    · have hbt : (ci == cid) = true := by simp [hb]
      simp [List.find?, hbt]
    · have hbf : (ci == cid) = false := by simp [hb]
      simp only [List.find?, hbf]
      exact ih

/-- C2 as amended: a successful, uninterrupted admission performs both
effects — it appends exactly the new Vote record to the log and
increments the chosen candidate's counter by one; but the two writes are
not an atomic unit, and a failure between them leaves the Vote recorded
with the counter not incremented (see the counterexample). -/
theorem admitVote_success_effects (st : Store) (voterId eid cid : Nat) (now : Int)
    (h : (admitVote st voterId eid cid now).1 = VoteOutcome.Success) :
    (admitVote st voterId eid cid now).2.votes =
      st.votes ++ [{ voter := voterId, candidate := cid, election := eid, timestamp := now }] ∧
    countVotesFor (admitVote st voterId eid cid now).2 eid cid = countVotesFor st eid cid + 1 ∧
    (findCandidateById (admitVote st voterId eid cid now).2 cid).map Candidate.voteCount =
      ((findCandidateById st cid).map Candidate.voteCount).map (fun n => n + 1) := by
  obtain ⟨el, hel, ha, hs, he, hcd, hv, hst⟩ := admitVote_success_inversion h
  refine ⟨by rw [hst]; rfl, ?_, ?_⟩
  · rw [hst]
    simp [countVotesFor, incVoteCount, List.filter_append]
  · rw [hst]
    exact findCandidateById_bump st.candidates cid

/-- Witness for `admitVote_success_effects`: the first admission on the
base store appends the single Vote and moves candidate 1's counter from
0 to 1. -/
theorem admitVote_success_effects_witness :
    (admitVote baseStore 7 1 1 50).2.votes =
      baseStore.votes ++ [{ voter := 7, candidate := 1, election := 1, timestamp := 50 }] ∧
    countVotesFor (admitVote baseStore 7 1 1 50).2 1 1 = countVotesFor baseStore 1 1 + 1 ∧
    (findCandidateById (admitVote baseStore 7 1 1 50).2 1).map Candidate.voteCount =
      ((findCandidateById baseStore 1).map Candidate.voteCount).map (fun n => n + 1) :=
  admitVote_success_effects baseStore 7 1 1 50 (by decide)

/-- The candidate sequence served by the results route, extracted from a
successful response. -/
lemma getResults_candidates {st : Store} {eid voterId : Nat} {r : ResultsResponse}
    (h : getResults st eid voterId = some r) :
    r.candidates = sortedCandidates st eid := by
  cases hel : findElection st eid with
  | none => rw [getResults, hel] at h; cases h
  | some el =>
    simp only [getResults, hel, Option.some.injEq] at h
    subst h
    rfl

/-- Counterexample to C6: the storage sort's contract leaves the order
of equal sort-key values undefined, so on the tally scenario — `candA`
and `candB` tied at three votes, `candA` created first — the served
order with `candB` before `candA` satisfies the contract just as well;
the program does not guarantee the claimed creation-order tie-break. -/
theorem results_tie_order_counterexample :
    candA.voteCount = candB.voteCount ∧
    electionCandidates tallyStore 1 = [candA, candB, candC] ∧
    MongoSortDesc (electionCandidates tallyStore 1) [candB, candA, candC] :=
  ⟨by decide, by decide, by decide, by decide⟩

/-- C6 as amended: the candidate sequence served by
`results(electionId)` satisfies the storage sort's contract — it is a
permutation of the election's candidates, sorted by voteCount
descending; the relative order of candidates with equal voteCount is
not specified by the program (the sort has no tiebreak key), and the
response itself carries only the ordered tally and total, asserting no
winner. -/
theorem results_ordering_desc (st : Store) (eid voterId : Nat) (r : ResultsResponse)
    (h : getResults st eid voterId = some r) :
    MongoSortDesc (electionCandidates st eid) r.candidates := by
  rw [getResults_candidates h]
  exact ⟨List.perm_insertionSort candGE _, List.sorted_insertionSort candGE _⟩

/-- Response served by the results route on the tally scenario store. -/
def tallyResult : ResultsResponse :=
  { election := election1
    candidates := [candA, candB, candC]
    totalVotes := 7
    userVote := none
    hasVoted := false }

/-- Witness for `results_ordering_desc`: the order served on the tally
scenario (3, 3 and 1 votes) meets the sort contract. -/
theorem results_ordering_desc_witness :
    MongoSortDesc (electionCandidates tallyStore 1) tallyResult.candidates :=
  results_ordering_desc tallyStore 1 99 tallyResult (by decide)

/-- C8: the `totalVotes` field served by the results route equals the
number of Vote records whose election reference is the requested
election. -/
theorem results_totalVotes (st : Store) (eid voterId : Nat) (r : ResultsResponse)
    (h : getResults st eid voterId = some r) :
    r.totalVotes = (st.votes.filter (fun v => v.election == eid)).length := by
  cases hel : findElection st eid with
  | none => rw [getResults, hel] at h; cases h
  | some el =>
    simp only [getResults, hel, Option.some.injEq] at h
    subst h
    rfl

/-- Witness for `results_totalVotes`: the tally scenario reports seven
total votes, the length of its vote log for election 1. -/
theorem results_totalVotes_witness :
    tallyResult.totalVotes = (tallyStore.votes.filter (fun v => v.election == 1)).length :=
  results_totalVotes tallyStore 1 99 tallyResult (by decide)

/-- Candidate documents never gain or lose ids under the counter bump. -/
lemma bumpFirst_map_id (cid : Nat) (cs : List Candidate) :
    (bumpFirst cid cs).map (fun c => c.id) = cs.map (fun c => c.id) := by
  induction cs with
  | nil => rfl
  | cons c cs ih =>
    unfold bumpFirst
    split_ifs with hb <;> simp [ih]

/-- No two candidate documents share an id (MongoDB `_id` uniqueness). -/
def CandidateIdsNodup (st : Store) : Prop :=
  (st.candidates.map (fun c => c.id)).Nodup

/-- Appending one element extends a filtered length by its own match. -/
lemma filter_append_single {α : Type} (p : α → Bool) (l : List α) (v : α) :
    ((l ++ [v]).filter p).length = (l.filter p).length + (if p v then 1 else 0) := by
  rw [List.filter_append]
  cases h : p v <;> simp [h]

/-- A committed insert appends exactly the new Vote. -/
lemma saveVote_ok_inversion {st st1 : Store} {v : Vote}
    (h : saveVote st v = SaveResult.ok st1) :
    st1 = { st with votes := st.votes ++ [v] } := by
  unfold saveVote at h
  by_cases hdup : (st.votes.any fun w => w.voter == v.voter && w.election == v.election) = true
  · rw [if_pos hdup] at h; cases h
  · rw [if_neg hdup] at h; cases h; rfl

/-- Appending a Vote and bumping its candidate's counter together keep
every candidate's counter equal to its vote-log count, provided
candidate ids are unique. -/
lemma countersConsistent_bump (cs : List Candidate) (votes : List Vote) (v : Vote)
    (hnd : (cs.map (fun c => c.id)).Nodup)
    (h0 : ∀ c ∈ cs, c.voteCount = (votes.filter (fun w => w.candidate == c.id)).length) :
    ∀ c ∈ bumpFirst v.candidate cs,
      c.voteCount = ((votes ++ [v]).filter (fun w => w.candidate == c.id)).length := by
  induction cs with
  | nil => intro c hc; simp [bumpFirst] at hc
  | cons c0 cs ih =>
    rw [List.map_cons, List.nodup_cons] at hnd
    obtain ⟨hnotin, hndtl⟩ := hnd
    intro c hc
    by_cases hb : (c0.id == v.candidate) = true
    · rw [beq_iff_eq] at hb
      unfold bumpFirst at hc
      rw [if_pos (by simp [hb])] at hc
      rcases List.mem_cons.mp hc with rfl | htl
      · have h00 := h0 c0 (List.mem_cons_self _ _)
        dsimp only
        rw [filter_append_single]
        have hvtrue : (v.candidate == c0.id) = true := by
          rw [beq_iff_eq]
          exact hb.symm
        rw [hvtrue, h00]
        simp
      · have h0c := h0 c (List.mem_cons_of_mem _ htl)
        rw [filter_append_single]
        have hvfalse : (v.candidate == c.id) = false := by
          rw [beq_eq_false_iff_ne]
          intro heq
          apply hnotin
          rw [hb, heq]
          exact List.mem_map_of_mem _ htl
        rw [hvfalse, h0c]
        simp
    · unfold bumpFirst at hc
      rw [if_neg hb] at hc
      rcases List.mem_cons.mp hc with rfl | htl
      · have h00 := h0 c (List.mem_cons_self _ _)
        rw [filter_append_single]
        have hvfalse : (v.candidate == c.id) = false := by
          rw [beq_eq_false_iff_ne]
          intro heq
          apply hb
          rw [beq_iff_eq]
          exact heq.symm
        rw [hvfalse, h00]
        simp
      · exact ih hndtl (fun c hc => h0 c (List.mem_cons_of_mem _ hc)) c htl

/-- The full commit phase preserves counter-log consistency. -/
lemma countersConsistent_commitPhase {st : Store} {v : Vote}
    (hnd : CandidateIdsNodup st) (h0 : CountersConsistent st) :
    CountersConsistent (commitPhase st v).2 := by
  unfold commitPhase
  cases hs : saveVote st v with
  | dupKey => exact h0
  | ok st1 =>
    obtain rfl := saveVote_ok_inversion hs
    intro c hc
    exact countersConsistent_bump st.candidates st.votes v hnd (fun c hc => h0 c hc) c hc

/-- The full commit phase preserves uniqueness of candidate ids. -/
lemma candidateIdsNodup_commitPhase {st : Store} {v : Vote}
    (hnd : CandidateIdsNodup st) : CandidateIdsNodup (commitPhase st v).2 := by
  unfold commitPhase
  cases hs : saveVote st v with
  | dupKey => exact hnd
  | ok st1 =>
    obtain rfl := saveVote_ok_inversion hs
    unfold CandidateIdsNodup incVoteCount at *
    simpa [bumpFirst_map_id] using hnd

/-- Store reached from the base store when an admission commits its Vote
but fails before the counter increment; the results route then serves
candidate 1 with counter 0 although the vote log holds one Vote for it. -/
theorem results_serve_stale_counter_counterexample :
    ReachableFrom baseStore crashedStore ∧
    (getResults crashedStore 1 99).map (fun r => r.candidates.map Candidate.voteCount) =
      some [0, 0] ∧
    countVotesFor crashedStore 1 1 = 1 :=
  ⟨ReachableFrom.step ReachableFrom.refl (Step.crash _), by decide, by decide⟩

/-- C7 as amended: the results route serves the denormalized voteCount
counters directly, with no recomputation or reconciliation against the
Vote log; in failure-free operation (no interruption between insert and
increment) every served per-candidate count does equal the number of
Vote records referencing the candidate, but after a partial failure the
served counter diverges from the log (see the counterexample). -/
theorem results_counts_match_log (base st : Store)
    (hnd : CandidateIdsNodup base) (h0 : CountersConsistent base)
    (h : ReachableNoCrash base st) :
    CountersConsistent st ∧
    ∀ eid voterId r, getResults st eid voterId = some r →
      ∀ c ∈ r.candidates, c.voteCount = countVotesCandidate st c.id := by
  have key : CandidateIdsNodup st ∧ CountersConsistent st := by
    induction h with
    | refl => exact ⟨hnd, h0⟩
    | admitStep voterId eid cid now hr ih =>
      rcases admitVote_state_cases _ voterId eid cid now with hc | hc
      · rw [hc]; exact ih
      · rw [hc]
        exact ⟨candidateIdsNodup_commitPhase ih.1, countersConsistent_commitPhase ih.1 ih.2⟩
    | race v hr ih =>
      exact ⟨candidateIdsNodup_commitPhase ih.1, countersConsistent_commitPhase ih.1 ih.2⟩
  refine ⟨key.2, ?_⟩
  intro eid voterId r hres c hc
  rw [getResults_candidates hres] at hc
  unfold sortedCandidates at hc
  rw [List.mem_insertionSort] at hc
  exact key.2 c (List.mem_filter.mp hc).1

/-- Witness for `results_counts_match_log`: in the consistent tally
scenario, candidate A's served counter (3) equals its vote-log count. -/
theorem results_counts_match_log_witness :
    candA.voteCount = countVotesCandidate tallyStore candA.id := by
  have h := results_counts_match_log tallyStore tallyStore
    (by unfold CandidateIdsNodup; decide) (by unfold CountersConsistent; decide)
    ReachableNoCrash.refl
  exact h.2 1 99 tallyResult (by decide) candA (by decide)

/-- Counterexample to C9: the frontend's ended test compares only the
dates and ignores the enabled flag, so for the disabled election past
its window the winner banner is shown although `classify` yields
Inactive, not Closed. -/
theorem winner_shown_while_inactive_counterexample :
    (getResults endedStore 1 99).map (fun r => winnerDisplayed r 10) = some (some candW) ∧
    getElectionStatus endedInactiveElection 10 = LifecycleState.Inactive ∧
    getElectionStatus endedInactiveElection 10 ≠ LifecycleState.Closed := by
  refine ⟨by decide, by decide, by decide⟩

/-- C9 as amended: a winner is reported exactly when `now` is past the
election's `endDate` (regardless of the enabled flag, so also for an
election whose `classify` result is Inactive), the election has at least
one candidate, and `totalVotes` is positive; the reported winner is the
head of the descending ordering and therefore has the maximal served
count; with `totalVotes = 0` no winner is reported. -/
theorem winner_display_conditions (st : Store) (eid voterId : Nat) (now : Int)
    (r : ResultsResponse) (h : getResults st eid voterId = some r) :
    ((winnerDisplayed r now).isSome = true ↔
      (r.candidates ≠ [] ∧ r.election.endDate < now ∧ 0 < r.totalVotes)) ∧
    (∀ w, winnerDisplayed r now = some w →
      ∀ c ∈ r.candidates, c.voteCount ≤ w.voteCount) ∧
    (r.totalVotes = 0 → winnerDisplayed r now = none) := by
  have hsorted : r.candidates.Pairwise candGE := by
    rw [getResults_candidates h]
    exact List.sorted_insertionSort candGE _
  cases hc : r.candidates with
  | nil =>
    refine ⟨by simp [winnerDisplayed, hc], ?_, by intro h0; simp [winnerDisplayed, hc]⟩
    intro w hw
    simp [winnerDisplayed, hc] at hw
  | cons w0 tail =>
    rw [hc] at hsorted
    refine ⟨?_, ?_, ?_⟩
    · by_cases he : r.election.endDate < now <;> by_cases ht : 0 < r.totalVotes <;>
        simp [winnerDisplayed, hc, isElectionEnded, he, ht]
    · intro w hw c hcmem
      simp only [winnerDisplayed, hc, List.head?_cons] at hw
      by_cases hcond :
          (isElectionEnded r.election now && decide (0 < r.totalVotes)) = true
      · rw [if_pos hcond] at hw
        obtain rfl : w0 = w := by simpa using hw
        rcases List.mem_cons.mp hcmem with rfl | htl
        · exact Nat.le_refl _
        · exact List.rel_of_pairwise_cons hsorted htl
      · rw [if_neg hcond] at hw
        cases hw
    · intro h0
      simp [winnerDisplayed, hc, h0]

/-- Witness for `winner_display_conditions`: on the tally scenario at a
time past the end date, a winner is displayed. -/
theorem winner_display_conditions_witness :
    (winnerDisplayed tallyResult 200).isSome = true :=
  ((winner_display_conditions tallyStore 1 99 200 tallyResult (by decide)).1).mpr (by decide)

/-- C10: each administrative mutation of an entity that already holds a
vote is rejected with Conflict and leaves the store unchanged — changing
the dates of an election with votes, deleting an election with votes,
and deleting a candidate with votes (the candidate and its counter thus
remain). -/
theorem admin_conflict_on_voted (st : Store) (eid cid : Nat) (b : ElectionUpdate) :
    ((findElection st eid).isSome = true → 1 ≤ countVotesElection st eid →
      (b.startDate.isSome = true ∨ b.endDate.isSome = true) →
      updateElection st eid b = (AdminOutcome.Conflict, st)) ∧
    ((findElection st eid).isSome = true → 1 ≤ countVotesElection st eid →
      deleteElection st eid = (AdminOutcome.Conflict, st)) ∧
    ((findCandidateById st cid).isSome = true → 1 ≤ countVotesCandidate st cid →
      deleteCandidate st cid = (AdminOutcome.Conflict, st)) := by
  refine ⟨?_, ?_, ?_⟩
  · intro hel hv hb
    obtain ⟨el, helv⟩ := Option.isSome_iff_exists.mp hel
    simp only [updateElection, helv]
    rw [if_pos ⟨by omega, by rcases hb with hb | hb <;> simp [hb]⟩]
  · intro hel hv
    obtain ⟨el, helv⟩ := Option.isSome_iff_exists.mp hel
    simp only [deleteElection, helv]
    rw [if_pos (by omega)]
  · intro hcd hv
    obtain ⟨cd, hcdv⟩ := Option.isSome_iff_exists.mp hcd
    simp only [deleteCandidate, hcdv]
    rw [if_pos (by omega)]

/-- Witness for `admin_conflict_on_voted`: on the store where election 1
holds one vote for candidate 1, a date change, an election deletion and
a candidate deletion are all rejected with Conflict and the store is
untouched. -/
theorem admin_conflict_on_voted_witness :
    updateElection votedStore 1 { startDate := some 5 } = (AdminOutcome.Conflict, votedStore) ∧
    deleteElection votedStore 1 = (AdminOutcome.Conflict, votedStore) ∧
    deleteCandidate votedStore 1 = (AdminOutcome.Conflict, votedStore) := by
  have h := admin_conflict_on_voted votedStore 1 1 { startDate := some 5 }
  exact ⟨h.1 (by decide) (by decide) (Or.inl (by decide)),
    h.2.1 (by decide) (by decide), h.2.2 (by decide) (by decide)⟩
